import Mathlib

/-!
Verification of the class-list recorder
(`src/hotspot/share/cds/classListWriter.cpp`).

The development shallowly embeds the registry (`_id_table` / `_total_ids`),
the per-event filter and dependency gate, and the log emitter of
`ClassListWriter::write_to_stream`, and proves the spec's invariants about
them: causal (topological) ordering of emitted ids, monotone unique id
assignment, permanence of drops, path normalization, and the line grammar.
-/

set_option autoImplicit false

namespace ClassListWriter

/-- A reference to a loaded class: models an `InstanceKlass*` pointer value,
the key type of `ClassListWriter::IDTable`. -/
abbrev KlassRef := Nat

/-- The fields of an `InstanceKlass` (and its loader and module) that
`ClassListWriter::write_to_stream` consults. -/
structure Klass where
  /-- The pointer identity of the class. -/
  ref : KlassRef
  /-- `k->name()->as_C_string()`. -/
  name : String
  /-- `SystemDictionaryShared::is_builtin_loader(k->class_loader_data())`. -/
  builtinLoader : Bool
  /-- `k->is_shared()`. -/
  shared : Bool
  /-- `k->is_hidden()`. -/
  hidden : Bool
  /-- `k->module()->is_patched()`. -/
  patchedModule : Bool
  /-- `k->java_super()`; `none` models a null supertype pointer. -/
  javaSuper : Option KlassRef
  /-- `k->local_interfaces()`, in declaration order. -/
  localInterfaces : List KlassRef
deriving DecidableEq

/-- The part of a `ClassFileStream` that is consulted: `cfs->source()`,
which may itself be null (`none`). -/
structure CFS where
  source : Option String
deriving DecidableEq

/-- Combined access `cfs == nullptr || cfs->source() == nullptr`:
the source string of an optional class-file stream. -/
def cfsSrc (cfs : Option CFS) : Option String :=
  match cfs with
  | none => none
  | some c => c.source

/-- The registry state: `ClassListWriter::_id_table` (modelled as an
association list over pointer keys; a null table behaves like the empty
list) together with the global counter `ClassListWriter::_total_ids`. -/
structure WriterState where
  idTable : List (KlassRef × Nat)
  totalIds : Nat
deriving DecidableEq

/-- The initial state: `_id_table == nullptr`, `_total_ids == 0`. -/
def initState : WriterState := { idTable := [], totalIds := 0 }

/-- Lookup in the id table (`_id_table->get(k)`). -/
def lookupId : List (KlassRef × Nat) → KlassRef → Option Nat
  | [], _ => none
  | p :: rest, k => if p.1 = k then some p.2 else lookupId rest k

/-- `ClassListWriter::get_id`: `put_if_absent`; when the entry is newly
created it receives `_total_ids++`. Returns the id and the new state. -/
def get_id (s : WriterState) (k : KlassRef) : Nat × WriterState :=
  match lookupId s.idTable k with
  | some v => (v, s)
  | none =>
      (s.totalIds,
       { idTable := (k, s.totalIds) :: s.idTable, totalIds := s.totalIds + 1 })

/-- `ClassListWriter::has_id`: true iff the table currently has an entry
for `k` (a null table yields false). -/
def has_id (s : WriterState) (k : KlassRef) : Bool :=
  (lookupId s.idTable k).isSome

/-- `ClassListWriter::handle_class_unloading`: removes the entry for the
unloaded class, if any. -/
def handle_class_unloading (s : WriterState) (k : KlassRef) : WriterState :=
  { s with idTable := s.idTable.filter (fun p => decide (p.1 ≠ k)) }

/-- Lines 109-126 of `write_to_stream`: the provenance checks taken for
classes of non-builtin loaders. `addOk` is the result of the external call
`SystemDictionaryShared::add_unregistered_class`. Returns true iff the
event is rejected (an early `return`). -/
def provenanceReject (addOk : Bool) (k : Klass) (cfs : Option CFS) : Bool :=
  if !k.builtinLoader then
    if !k.shared then
      match cfsSrc cfs with
      | none => true
      | some src =>
          if !(src.take 5 == "file:") then true
          else !addOk
    else true
  else false

/-- Line 129 of `write_to_stream`: the synthetic-generation
(`_ClassSpecializer_generateConcreteSpeciesCode`) marker check. -/
def speciesReject (cfs : Option CFS) : Bool :=
  match cfsSrc cfs with
  | some src => src == "_ClassSpecializer_generateConcreteSpeciesCode"
  | none => false

/-- Lines 134-137 of `write_to_stream`: the supertype gate; a null
supertype skips the `has_id` check. -/
def superGateReject (s : WriterState) (k : Klass) : Bool :=
  match k.javaSuper with
  | some sup => !(has_id s sup)
  | none => false

/-- Lines 139-146 of `write_to_stream`: the interface gate loop. -/
def interfacesGateReject (s : WriterState) : List KlassRef → Bool
  | [] => false
  | i :: rest =>
      if !(has_id s i) then true else interfacesGateReject s rest

/-- The loop of lines 168-171: `get_id` applied to each interface in order,
threading the registry state. -/
def getIdsLoop (s : WriterState) : List KlassRef → List Nat × WriterState
  | [] => ([], s)
  | r :: rest =>
      let p := get_id s r
      let q := getIdsLoop p.2 rest
      (p.1 :: q.1, q.2)

/-- The extra fields printed for a class of a non-builtin loader
(lines 159-182): `super:`, optional `interfaces:`, `source:`. -/
structure ExtraInfo where
  superId : Nat
  interfaceIds : List Nat
  src : String
deriving DecidableEq

/-- One record of the class list: the data printed by lines 158-185. -/
structure LogLine where
  className : String
  classId : Nat
  extra : Option ExtraInfo
deriving DecidableEq

/-- Lines 176-182: the printed source string, `cfs->source() + 6` on
Windows and `cfs->source() + 5` elsewhere. On the emitting path the
source is known to be present; a missing source yields the empty string. -/
def sourceTail (windows : Bool) (cfs : Option CFS) : String :=
  ((cfsSrc cfs).getD "").drop (if windows then 6 else 5)

/-- `ClassListWriter::write_to_stream` (lines 104-187). The result is
`none` when the debug assertion `assert(super != nullptr)` of line 161
fires; `some (none, s)` when the event is silently dropped by a filter or
by the dependency gate (every early `return` leaves the registry
untouched); and `some (some line, s2)` when one line is written and
flushed, with `s2` the registry state after the `get_id` calls. -/
def write_to_stream (windows : Bool) (addOk : Bool) (k : Klass)
    (cfs : Option CFS) (s : WriterState) :
    Option (Option LogLine × WriterState) :=
  if provenanceReject addOk k cfs then some (none, s)
  else if speciesReject cfs then some (none, s)
  else if superGateReject s k then some (none, s)
  else if interfacesGateReject s k.localInterfaces then some (none, s)
  else if k.hidden then some (none, s)
  else if k.patchedModule then some (none, s)
  else
    let p1 := get_id s k.ref
    if !k.builtinLoader then
      match k.javaSuper with
      | none => none
      | some sup =>
          let p2 := get_id p1.2 sup
          let p3 := getIdsLoop p2.2 k.localInterfaces
          some (some { className := k.name, classId := p1.1,
                       extra := some { superId := p2.1,
                                       interfaceIds := p3.1,
                                       src := sourceTail windows cfs } },
                p3.2)
    else
      some (some { className := k.name, classId := p1.1, extra := none },
            p1.2)

/-- Rendering of the interface-id loop body: one `" %d"` per id. -/
def renderIds : List Nat → String
  | [] => ""
  | i :: rest => " " ++ toString i ++ renderIds rest

/-- The exact text printed for one record by lines 158-185:
`"%s id: %d"`, then for non-builtin loaders `" super: %d"`, the
`" interfaces:"` group only when at least one interface exists, and
`" source: %s"`. -/
def renderLine (l : LogLine) : String :=
  l.className ++ " id: " ++ toString l.classId ++
    (match l.extra with
     | none => ""
     | some e =>
         " super: " ++ toString e.superId ++
           (if e.interfaceIds.length > 0 then
              " interfaces:" ++ renderIds e.interfaceIds
            else "") ++
           " source: " ++ e.src)

/-- The ids referenced (not defined) by a record: the supertype id and the
interface ids of a non-builtin line. -/
def referencedIds (l : LogLine) : List Nat :=
  match l.extra with
  | none => []
  | some e => e.superId :: e.interfaceIds

/-- An event observed by the recorder: a class-load event handed to
`write_to_stream`, or an unload notification handed to
`handle_class_unloading`. -/
inductive Event where
  | load (k : Klass) (cfs : Option CFS) (addOk : Bool)
  | unload (r : KlassRef)
deriving DecidableEq

/-- One event step: the new registry state and the line emitted, if any.
`none` propagates an assertion failure. -/
def stepEvent (windows : Bool) (s : WriterState) :
    Event → Option (WriterState × Option LogLine)
  | Event.load k cfs addOk =>
      match write_to_stream windows addOk k cfs s with
      | none => none
      | some (out, s2) => some (s2, out)
  | Event.unload r => some (handle_class_unloading s r, none)

/-- Processing of a sequence of events from a state: the final registry
state and the log lines appended, in order. -/
def runEvents (windows : Bool) :
    List Event → WriterState → Option (WriterState × List LogLine)
  | [], s => some (s, [])
  | e :: es, s =>
      match stepEvent windows s e with
      | none => none
      | some (s2, out) =>
          match runEvents windows es s2 with
          | none => none
          | some (s3, log) => some (s3, out.toList ++ log)

/-- An operation on the identity registry alone: `get_id` or the removal
performed by `handle_class_unloading`. -/
inductive RegOp where
  | get (k : KlassRef)
  | rem (k : KlassRef)
deriving DecidableEq

/-- Application of a single registry operation to the state. -/
def applyOp (s : WriterState) : RegOp → WriterState
  | RegOp.get k => (get_id s k).2
  | RegOp.rem k => handle_class_unloading s k

/-- Application of a sequence of registry operations. -/
def runOps (s : WriterState) : List RegOp → WriterState
  | [] => s
  | op :: ops => runOps (applyOp s op) ops

/-- The ids newly created (in order) while running a sequence of registry
operations: a `get_id` on an unmapped key records the id it allocates. -/
def createdIds (s : WriterState) : List RegOp → List Nat
  | [] => []
  | RegOp.get k :: ops =>
      if has_id s k then createdIds (get_id s k).2 ops
      else (get_id s k).1 :: createdIds (get_id s k).2 ops
  | RegOp.rem k :: ops => createdIds (handle_class_unloading s k) ops

/-! ### Registry lemmas -/

theorem lookupId_cons (p : KlassRef × Nat) (t : List (KlassRef × Nat))
    (k : KlassRef) :
    lookupId (p :: t) k = if p.1 = k then some p.2 else lookupId t k := rfl

theorem has_id_iff (s : WriterState) (k : KlassRef) :
    has_id s k = true ↔ ∃ v, lookupId s.idTable k = some v := by
  unfold has_id
  cases h : lookupId s.idTable k <;> simp [h]

theorem get_id_of_some {s : WriterState} {k : KlassRef} {v : Nat}
    (h : lookupId s.idTable k = some v) : get_id s k = (v, s) := by
  unfold get_id
  rw [h]

theorem get_id_of_none {s : WriterState} {k : KlassRef}
    (h : lookupId s.idTable k = none) :
    get_id s k = (s.totalIds,
      { idTable := (k, s.totalIds) :: s.idTable, totalIds := s.totalIds + 1 }) := by
  unfold get_id
  rw [h]

/-- `get_id` never alters an existing mapping. -/
theorem get_id_mono {s : WriterState} {r : KlassRef} {v : Nat}
    (h : lookupId s.idTable r = some v) (k : KlassRef) :
    lookupId (get_id s k).2.idTable r = some v := by
  cases hk : lookupId s.idTable k with
  | some w => rw [get_id_of_some hk]; exact h
  | none =>
      rw [get_id_of_none hk]
      have hrk : ¬ (k = r) := by
        intro he; rw [he] at hk; rw [hk] at h; exact Option.noConfusion h
      simp [lookupId_cons, hrk, h]

/-- After `get_id`, the key looked up maps to the returned id. -/
theorem get_id_lookup_self (s : WriterState) (k : KlassRef) :
    lookupId (get_id s k).2.idTable k = some (get_id s k).1 := by
  cases hk : lookupId s.idTable k with
  | some w => rw [get_id_of_some hk]; exact hk
  | none => rw [get_id_of_none hk]; simp [lookupId_cons]

/-- Any mapping present after `get_id` was present before or is the new
entry carrying the returned id. -/
theorem get_id_lookup_inv {s : WriterState} {k r : KlassRef} {v : Nat}
    (h : lookupId (get_id s k).2.idTable r = some v) :
    lookupId s.idTable r = some v ∨ (r = k ∧ v = (get_id s k).1) := by
  cases hk : lookupId s.idTable k with
  | some w => rw [get_id_of_some hk] at h; exact Or.inl h
  | none =>
      rw [get_id_of_none hk] at h
      rw [get_id_of_none hk]
      by_cases hrk : k = r
      · subst hrk
        simp [lookupId_cons] at h
        exact Or.inr ⟨rfl, h.symm⟩
      · simp [lookupId_cons, hrk] at h
        exact Or.inl h

theorem lookup_remove_self (s : WriterState) (k : KlassRef) :
    lookupId (handle_class_unloading s k).idTable k = none := by
  unfold handle_class_unloading
  induction s.idTable with
  | nil => rfl
  | cons p t ih =>
      by_cases hp : p.1 = k
      · simpa [List.filter, hp] using ih
      · simpa [List.filter, hp, lookupId_cons] using ih

theorem lookup_remove_other {r k : KlassRef} (hrk : r ≠ k) (s : WriterState) :
    lookupId (handle_class_unloading s k).idTable r = lookupId s.idTable r := by
  unfold handle_class_unloading
  induction s.idTable with
  | nil => rfl
  | cons p t ih =>
      have hkr : ¬ (k = r) := fun he => hrk he.symm
      by_cases hp : p.1 = k
      · simpa [List.filter, hp, lookupId_cons, hkr] using ih
      · by_cases hpr : p.1 = r
        · simp [List.filter, hp, lookupId_cons, hpr, hrk]
        · simpa [List.filter, hp, lookupId_cons, hpr] using ih

/-- A mapping surviving a removal was present before it. -/
theorem lookup_remove_sub {s : WriterState} {k r : KlassRef} {v : Nat}
    (h : lookupId (handle_class_unloading s k).idTable r = some v) :
    lookupId s.idTable r = some v := by
  by_cases hrk : r = k
  · rw [hrk, lookup_remove_self] at h; exact Option.noConfusion h
  · rwa [lookup_remove_other hrk] at h

/-- The registry invariant: every live id is below the counter, and the
live ids are pairwise distinct. -/
def RegInv (s : WriterState) : Prop :=
  (∀ p ∈ s.idTable, p.2 < s.totalIds) ∧ (s.idTable.map Prod.snd).Nodup

theorem regInv_initState : RegInv initState := by
  constructor
  · intro p hp; exact absurd hp (List.not_mem_nil p)
  · exact List.nodup_nil

theorem regInv_get {s : WriterState} (h : RegInv s) (k : KlassRef) :
    RegInv (get_id s k).2 := by
  cases hk : lookupId s.idTable k with
  | some v => rw [get_id_of_some hk]; exact h
  | none =>
      rw [get_id_of_none hk]
      constructor
      · intro p hp
        rcases List.mem_cons.mp hp with he | ht
        · rw [he]; exact Nat.lt_succ_self _
        · exact Nat.lt_succ_of_lt (h.1 p ht)
      · rw [List.map_cons]
        refine List.nodup_cons.mpr ⟨?_, h.2⟩
        intro hmem
        rcases List.mem_map.mp hmem with ⟨p, hp, hv⟩
        have hlt := h.1 p hp
        rw [hv] at hlt
        exact Nat.lt_irrefl _ hlt

theorem regInv_rem {s : WriterState} (h : RegInv s) (k : KlassRef) :
    RegInv (handle_class_unloading s k) := by
  constructor
  · intro p hp
    exact h.1 p (List.mem_of_mem_filter hp)
  · exact List.Nodup.sublist ((List.filter_sublist _).map Prod.snd) h.2

theorem regInv_applyOp {s : WriterState} (h : RegInv s) (op : RegOp) :
    RegInv (applyOp s op) := by
  cases op with
  | get k => exact regInv_get h k
  | rem k => exact regInv_rem h k

theorem regInv_runOps : ∀ (ops : List RegOp) {s : WriterState},
    RegInv s → RegInv (runOps s ops) := by
  intro ops
  induction ops with
  | nil => intro s h; exact h
  | cons op ops ih => intro s h; exact ih (regInv_applyOp h op)

theorem applyOp_totalIds_le (s : WriterState) (op : RegOp) :
    s.totalIds ≤ (applyOp s op).totalIds := by
  cases op with
  | get k =>
      cases hk : lookupId s.idTable k with
      | some v => rw [show applyOp s (RegOp.get k) = (get_id s k).2 from rfl,
                      get_id_of_some hk]
      | none =>
          rw [show applyOp s (RegOp.get k) = (get_id s k).2 from rfl,
              get_id_of_none hk]
          exact Nat.le_succ _
  | rem k => exact Nat.le_refl _

theorem runOps_totalIds_mono : ∀ (ops : List RegOp) (s : WriterState),
    s.totalIds ≤ (runOps s ops).totalIds := by
  intro ops
  induction ops with
  | nil => intro s; exact Nat.le_refl _
  | cons op ops ih =>
      intro s
      exact Nat.le_trans (applyOp_totalIds_le s op) (ih (applyOp s op))

theorem runOps_append (pre suf : List RegOp) : ∀ s : WriterState,
    runOps s (pre ++ suf) = runOps (runOps s pre) suf := by
  induction pre with
  | nil => intro s; rfl
  | cons op ops ih => intro s; exact ih (applyOp s op)

/-- The ids created along a run are exactly the counter values from the
initial counter up to the final one, in order. -/
theorem createdIds_spec : ∀ (ops : List RegOp) (s : WriterState),
    createdIds s ops =
      List.range' s.totalIds ((runOps s ops).totalIds - s.totalIds) := by
  intro ops
  induction ops with
  | nil => intro s; simp [createdIds, runOps]
  | cons op ops ih =>
      intro s
      cases op with
      | get k =>
          cases hk : lookupId s.idTable k with
          | some v =>
              have hh : has_id s k = true := by simp [has_id, hk]
              simp only [createdIds, hh, if_true, runOps, applyOp,
                         get_id_of_some hk]
              exact ih s
          | none =>
              have hh : has_id s k = false := by simp [has_id, hk]
              have hmono := runOps_totalIds_mono ops (get_id s k).2
              rw [get_id_of_none hk] at hmono
              simp only [createdIds, hh, Bool.false_eq_true, if_false,
                         runOps, applyOp, get_id_of_none hk]
              have harith :
                  (runOps { idTable := (k, s.totalIds) :: s.idTable,
                            totalIds := s.totalIds + 1 } ops).totalIds - s.totalIds =
                  ((runOps { idTable := (k, s.totalIds) :: s.idTable,
                             totalIds := s.totalIds + 1 } ops).totalIds -
                    (s.totalIds + 1)) + 1 := by
                simp only [WriterState.totalIds] at hmono
                omega
              rw [harith, List.range'_succ]
              exact congrArg (List.cons s.totalIds) (ih _)
      | rem k =>
          simp only [createdIds, runOps, applyOp]
          exact ih (handle_class_unloading s k)

/-- Claim C3: across any sequence of `get_id` and
`handle_class_unloading` operations from the initial state, the ids
created by `get_id` are exactly `0, 1, 2, ...` in order (strictly
increasing, no gaps, no repeats, and a value removed from the table is
never allocated again since the counter only grows); the live mappings
carry pairwise distinct ids; the counter never decreases along the run;
and a single operation never changes the id of an existing mapping — it
either preserves it or deletes it. -/
theorem c3_monotonic_unique_ids : ∀ (ops : List RegOp),
    createdIds initState ops = List.range ((runOps initState ops).totalIds) ∧
    ((runOps initState ops).idTable.map Prod.snd).Nodup ∧
    (∀ pre suf, ops = pre ++ suf →
        (runOps initState pre).totalIds ≤ (runOps initState ops).totalIds) ∧
    (∀ (s : WriterState) (r : KlassRef) (v : Nat) (op : RegOp),
        lookupId s.idTable r = some v →
        lookupId (applyOp s op).idTable r = some v ∨
        lookupId (applyOp s op).idTable r = none) := by
  intro ops
  refine ⟨?_, ?_, ?_, ?_⟩
  · rw [createdIds_spec ops initState]
    rw [show initState.totalIds = 0 from rfl, Nat.sub_zero,
        List.range_eq_range']
  · exact (regInv_runOps ops regInv_initState).2
  · intro pre suf hsplit
    rw [hsplit, runOps_append]
    exact runOps_totalIds_mono suf (runOps initState pre)
  · intro s r v op hv
    cases op with
    | get k => exact Or.inl (get_id_mono hv k)
    | rem k =>
        by_cases hrk : r = k
        · rw [show applyOp s (RegOp.rem k) = handle_class_unloading s k from rfl,
              hrk, lookup_remove_self]
          exact Or.inr rfl
        · rw [show applyOp s (RegOp.rem k) = handle_class_unloading s k from rfl,
              lookup_remove_other hrk]
          exact Or.inl hv

def opsEx3 : List RegOp := [RegOp.get 5, RegOp.get 7, RegOp.rem 5, RegOp.get 5]

def stEx3 : WriterState := { idTable := [(5, 0)], totalIds := 1 }

/-- Witness for C3 at a concrete operation sequence. -/
theorem c3_witness :
    createdIds initState opsEx3 = List.range ((runOps initState opsEx3).totalIds) ∧
    (runOps initState [RegOp.get 5]).totalIds ≤ (runOps initState opsEx3).totalIds ∧
    (lookupId (applyOp stEx3 (RegOp.get 9)).idTable 5 = some 0 ∨
     lookupId (applyOp stEx3 (RegOp.get 9)).idTable 5 = none) := by
  have h := c3_monotonic_unique_ids opsEx3
  exact ⟨h.1,
         h.2.2.1 [RegOp.get 5] [RegOp.get 7, RegOp.rem 5, RegOp.get 5] rfl,
         h.2.2.2 stEx3 5 0 (RegOp.get 9) (by decide)⟩

/-- Claim C5: `get_id` is idempotent — a second call on the same key
returns the same id and the same state, and the counter advances exactly
when the first call creates the mapping, never on the repeated call. -/
theorem c5_get_id_idempotent : ∀ (s : WriterState) (k : KlassRef),
    get_id (get_id s k).2 k = ((get_id s k).1, (get_id s k).2) ∧
    (get_id s k).2.totalIds =
      (if has_id s k then s.totalIds else s.totalIds + 1) ∧
    (get_id (get_id s k).2 k).2.totalIds = (get_id s k).2.totalIds := by
  intro s k
  have h1 : get_id (get_id s k).2 k = ((get_id s k).1, (get_id s k).2) :=
    get_id_of_some (get_id_lookup_self s k)
  refine ⟨h1, ?_, by rw [h1]⟩
  cases hk : lookupId s.idTable k with
  | some v => rw [get_id_of_some hk]; simp [has_id, hk]
  | none => rw [get_id_of_none hk]; simp [has_id, hk]

/-- Any candidate whose supertype currently lacks an id is silently
dropped with the registry unchanged (lines 134-137). -/
theorem drop_of_missing_super {s : WriterState} {x : KlassRef} {k : Klass}
    (hsup : k.javaSuper = some x) (hx : has_id s x = false)
    (windows addOk : Bool) (cfs : Option CFS) :
    write_to_stream windows addOk k cfs s = some (none, s) := by
  unfold write_to_stream
  have hg : superGateReject s k = true := by
    unfold superGateReject; rw [hsup]; simp [hx]
  by_cases h1 : provenanceReject addOk k cfs = true
  · simp [h1]
  · by_cases h2 : speciesReject cfs = true
    · simp [h1, h2]
    · simp [h1, h2, hg]

/-- Claim C6: `has_id` is true exactly when a mapping currently exists —
false in the initial state, false immediately after
`handle_class_unloading`, even for a key that had an id before — and a
later load event whose supertype has no current mapping is dropped and
never produces a line. -/
theorem c6_has_id_spec : ∀ (s : WriterState) (k : KlassRef),
    (has_id s k = true ↔ ∃ v, lookupId s.idTable k = some v) ∧
    has_id initState k = false ∧
    has_id (handle_class_unloading s k) k = false ∧
    (∀ (windows addOk : Bool) (kl : Klass) (cfs : Option CFS),
        kl.javaSuper = some k → has_id s k = false →
        write_to_stream windows addOk kl cfs s = some (none, s)) := by
  intro s k
  refine ⟨has_id_iff s k, rfl, ?_, ?_⟩
  · unfold has_id
    rw [lookup_remove_self]
    rfl
  · intro windows addOk kl cfs hsup hx
    exact drop_of_missing_super hsup hx windows addOk cfs

def stEx6 : WriterState := { idTable := [(5, 0)], totalIds := 1 }

def klEx6 : Klass :=
  { ref := 7, name := "q/D", builtinLoader := true, shared := false,
    hidden := false, patchedModule := false, javaSuper := some 5,
    localInterfaces := [] }

/-- Witness for C6: key 5 had id 0, is unloaded, and a later candidate
with supertype 5 is dropped. -/
theorem c6_witness :
    has_id (handle_class_unloading stEx6 5) 5 = false ∧
    write_to_stream false true klEx6 none (handle_class_unloading stEx6 5) =
      some (none, handle_class_unloading stEx6 5) :=
  ⟨(c6_has_id_spec stEx6 5).2.2.1,
   (c6_has_id_spec (handle_class_unloading stEx6 5) 5).2.2.2 false true klEx6
     none (by decide) (by decide)⟩

theorem bool_not_true {b : Bool} (h : ¬ b = true) : b = false := by
  cases b
  · rfl
  · exact absurd rfl h

theorem superGate_pass {s : WriterState} {k : Klass} {sup : KlassRef}
    (h : superGateReject s k = false) (hsup : k.javaSuper = some sup) :
    ∃ v, lookupId s.idTable sup = some v := by
  unfold superGateReject at h
  rw [hsup] at h
  simp at h
  exact (has_id_iff s sup).mp h

theorem intfGate_pass {s : WriterState} : ∀ {lst : List KlassRef},
    interfacesGateReject s lst = false →
    ∀ i ∈ lst, ∃ v, lookupId s.idTable i = some v := by
  intro lst
  induction lst with
  | nil => intro _ i hi; exact absurd hi (List.not_mem_nil i)
  | cons j rest ih =>
      intro h i hi
      simp only [interfacesGateReject] at h
      cases hj : has_id s j with
      | false => rw [hj] at h; simp at h
      | true =>
          rw [hj] at h
          simp at h
          rcases List.mem_cons.mp hi with he | ht
          · rw [he]; exact (has_id_iff s j).mp hj
          · exact ih h i ht

theorem forall2_mem_right {α β : Type} {R : α → β → Prop} :
    ∀ {as : List α} {bs : List β}, List.Forall₂ R as bs →
    ∀ b ∈ bs, ∃ a ∈ as, R a b := by
  intro as bs h
  induction h with
  | nil => intro b hb; exact absurd hb (List.not_mem_nil b)
  | @cons a b' as' bs' hR hrest ih =>
      intro b hb
      rcases List.mem_cons.mp hb with he | ht
      · subst he
        exact ⟨a, List.mem_cons_self a as', hR⟩
      · obtain ⟨a2, ha2, hr2⟩ := ih b ht
        exact ⟨a2, List.mem_cons_of_mem a ha2, hr2⟩

theorem getIdsLoop_of_present : ∀ (lst : List KlassRef) (s : WriterState),
    (∀ r ∈ lst, ∃ v, lookupId s.idTable r = some v) →
    (getIdsLoop s lst).2 = s ∧
    List.Forall₂ (fun r x => lookupId s.idTable r = some x) lst
      (getIdsLoop s lst).1 := by
  intro lst
  induction lst with
  | nil => intro s _; exact ⟨rfl, List.Forall₂.nil⟩
  | cons r rest ih =>
      intro s hp
      obtain ⟨v, hv⟩ := hp r (List.mem_cons_self r rest)
      have hrest := fun i hi => hp i (List.mem_cons_of_mem r hi)
      have hg : get_id s r = (v, s) := get_id_of_some hv
      have hrec := ih s hrest
      constructor
      · simp only [getIdsLoop, hg]
        exact hrec.1
      · simp only [getIdsLoop, hg]
        exact List.Forall₂.cons hv hrec.2

/-- A non-builtin class that passed the provenance checks has a class-file
source that begins with the file scheme, is not shared, and registered
successfully. -/
theorem provenance_pass_src {addOk : Bool} {k : Klass} {cfs : Option CFS}
    (hb : k.builtinLoader = false)
    (hp : provenanceReject addOk k cfs = false) :
    ∃ str, cfsSrc cfs = some str ∧ (str.take 5 == "file:") = true ∧
      k.shared = false ∧ addOk = true := by
  unfold provenanceReject at hp
  rw [hb] at hp
  cases hsh : k.shared with
  | true => rw [hsh] at hp; simp at hp
  | false =>
      rw [hsh] at hp
      cases hc : cfsSrc cfs with
      | none => rw [hc] at hp; simp at hp
      | some str =>
          rw [hc] at hp
          simp only [Bool.not_false, if_true] at hp
          cases hst : str.take 5 == "file:" with
          | false => rw [hst] at hp; simp at hp
          | true =>
              rw [hst] at hp
              simp at hp
              exact ⟨str, rfl, hst, rfl, hp⟩

theorem pair_some_eq {α β : Type} {a c : α} {b d : β}
    (h : some (a, b) = some (c, d)) : a = c ∧ b = d :=
  Prod.ext_iff.mp (Option.some.inj h)

/-- A drop (a silent early `return`) leaves the registry unchanged. -/
theorem write_drop_state {windows addOk : Bool} {k : Klass}
    {cfs : Option CFS} {s s2 : WriterState}
    (h : write_to_stream windows addOk k cfs s = some (none, s2)) :
    s2 = s := by
  rw [write_to_stream] at h
  split_ifs at h with h1 h2 h3 h4 h5 h6 h7
  · exact (pair_some_eq h).2.symm
  · exact (pair_some_eq h).2.symm
  · exact (pair_some_eq h).2.symm
  · exact (pair_some_eq h).2.symm
  · exact (pair_some_eq h).2.symm
  · exact (pair_some_eq h).2.symm
  · cases hsup : k.javaSuper with
    | none => simp [hsup] at h
    | some sup => simp [hsup] at h
  · simp at h

/-- Characterization of a successful emission by `write_to_stream`: the
line carries the class's name; after the call the class is mapped to the
printed id; the only mapping the call can add is the class's own; every
referenced id was already a live mapping before the call; and a
non-builtin line carries the supertype id, the interface ids and the
normalized source. -/
theorem emit_char {windows addOk : Bool} {k : Klass} {cfs : Option CFS}
    {s s2 : WriterState} {l : LogLine}
    (h : write_to_stream windows addOk k cfs s = some (some l, s2)) :
    l.className = k.name ∧
    lookupId s2.idTable k.ref = some l.classId ∧
    (∀ r v, lookupId s2.idTable r = some v →
        lookupId s.idTable r = some v ∨ v = l.classId) ∧
    (∀ x ∈ referencedIds l, ∃ key, lookupId s.idTable key = some x) ∧
    (k.builtinLoader = true → l.extra = none) ∧
    (k.builtinLoader = false → ∃ e sup str,
        l.extra = some e ∧ k.javaSuper = some sup ∧
        lookupId s2.idTable sup = some e.superId ∧
        List.Forall₂ (fun r x => lookupId s2.idTable r = some x)
          k.localInterfaces e.interfaceIds ∧
        cfsSrc cfs = some str ∧
        e.src = str.drop (if windows then 6 else 5)) := by
  by_cases h1 : provenanceReject addOk k cfs = true
  · rw [write_to_stream, if_pos h1] at h
    exact absurd h (by simp)
  by_cases h2 : speciesReject cfs = true
  · rw [write_to_stream, if_neg h1, if_pos h2] at h
    exact absurd h (by simp)
  by_cases h3 : superGateReject s k = true
  · rw [write_to_stream, if_neg h1, if_neg h2, if_pos h3] at h
    exact absurd h (by simp)
  by_cases h4 : interfacesGateReject s k.localInterfaces = true
  · rw [write_to_stream, if_neg h1, if_neg h2, if_neg h3, if_pos h4] at h
    exact absurd h (by simp)
  by_cases h5 : k.hidden = true
  · rw [write_to_stream, if_neg h1, if_neg h2, if_neg h3, if_neg h4,
        if_pos h5] at h
    exact absurd h (by simp)
  by_cases h6 : k.patchedModule = true
  · rw [write_to_stream, if_neg h1, if_neg h2, if_neg h3, if_neg h4,
        if_neg h5, if_pos h6] at h
    exact absurd h (by simp)
  rw [write_to_stream, if_neg h1, if_neg h2, if_neg h3, if_neg h4,
      if_neg h5, if_neg h6] at h
  cases hb : k.builtinLoader with
  | true =>
      simp only [hb, Bool.not_true, Bool.false_eq_true, if_false,
                 Option.some.injEq, Prod.mk.injEq] at h
      obtain ⟨hl, hs⟩ := h
      subst hs
      rw [← hl]
      refine ⟨rfl, get_id_lookup_self s k.ref, ?_, ?_, fun _ => rfl, ?_⟩
      · intro r v hv
        rcases get_id_lookup_inv hv with hold | ⟨_, hnew⟩
        · exact Or.inl hold
        · exact Or.inr hnew
      · intro x hx
        exact absurd hx (List.not_mem_nil x)
      · intro hf
        exact absurd hf (by simp)
  | false =>
      cases hsup : k.javaSuper with
      | none => simp [hb, hsup] at h
      | some sup =>
          obtain ⟨v, hv⟩ := superGate_pass (bool_not_true h3) hsup
          have hvs1 : lookupId (get_id s k.ref).2.idTable sup = some v :=
            get_id_mono hv k.ref
          have hp2 : get_id (get_id s k.ref).2 sup = (v, (get_id s k.ref).2) :=
            get_id_of_some hvs1
          have hintf : ∀ i ∈ k.localInterfaces,
              ∃ w, lookupId (get_id s k.ref).2.idTable i = some w := by
            intro i hi
            obtain ⟨w, hw⟩ := intfGate_pass (bool_not_true h4) i hi
            exact ⟨w, get_id_mono hw k.ref⟩
          have hloop := getIdsLoop_of_present k.localInterfaces
            (get_id s k.ref).2 hintf
          simp only [hb, hsup, hp2, Bool.not_false, if_true,
                     Option.some.injEq, Prod.mk.injEq] at h
          obtain ⟨hl, hs⟩ := h
          subst hs
          rw [← hl]
          obtain ⟨str, hcs, _hst, _hsh, _hok⟩ :=
            provenance_pass_src hb (bool_not_true h1)
          refine ⟨rfl, ?_, ?_, ?_, ?_, ?_⟩
          · rw [hloop.1]
            exact get_id_lookup_self s k.ref
          · intro r w hw
            rw [hloop.1] at hw
            rcases get_id_lookup_inv hw with hold | ⟨_, hnew⟩
            · exact Or.inl hold
            · exact Or.inr hnew
          · intro x hx
            rcases List.mem_cons.mp hx with he | ht
            · rw [he]; exact ⟨sup, hv⟩
            · obtain ⟨r, hr, hlook⟩ := forall2_mem_right hloop.2 x ht
              obtain ⟨w, hw⟩ := intfGate_pass (bool_not_true h4) r hr
              have hw1 : lookupId (get_id s k.ref).2.idTable r = some w :=
                get_id_mono hw k.ref
              rw [hlook] at hw1
              exact ⟨r, by rw [Option.some.inj hw1]; exact hw⟩
          · intro hf
            exact absurd hf (by simp)
          · intro _
            refine ⟨_, sup, str, rfl, rfl, ?_, ?_, hcs, ?_⟩
            · rw [hloop.1]
              exact hvs1
            · rw [hloop.1]
              exact hloop.2
            · unfold sourceTail
              rw [hcs]
              rfl


/-- Invariant tying the registry to the log: every live id already appears
as the own id of some emitted line. -/
def TableLogged (s : WriterState) (log : List LogLine) : Prop :=
  ∀ r v, lookupId s.idTable r = some v → ∃ l ∈ log, l.classId = v

theorem stepEvent_causal {windows : Bool} {s s2 : WriterState} {e : Event}
    {out : Option LogLine} {pre : List LogLine}
    (hstep : stepEvent windows s e = some (s2, out))
    (hinv : TableLogged s pre) :
    (∀ l, out = some l → ∀ x ∈ referencedIds l, ∃ l2 ∈ pre, l2.classId = x) ∧
    TableLogged s2 (pre ++ out.toList) := by
  cases e with
  | load k cfs addOk =>
      simp only [stepEvent] at hstep
      cases hw : write_to_stream windows addOk k cfs s with
      | none => rw [hw] at hstep; exact absurd hstep (by simp)
      | some q =>
          obtain ⟨o, st⟩ := q
          rw [hw] at hstep
          simp only [Option.some.injEq, Prod.mk.injEq] at hstep
          obtain ⟨hst, ho⟩ := hstep
          subst hst
          subst ho
          cases o with
          | none =>
              have hdrop : st = s := write_drop_state hw
              subst hdrop
              refine ⟨fun l hl => absurd hl (by simp), ?_⟩
              simpa using hinv
          | some l =>
              have hc := emit_char hw
              constructor
              · intro l2 hl2 x hx
                rw [← Option.some.inj hl2] at hx
                obtain ⟨key, hkey⟩ := hc.2.2.2.1 x hx
                exact hinv key x hkey
              · intro r v hv
                rcases hc.2.2.1 r v hv with hold | hnew
                · obtain ⟨l2, hl2, hid⟩ := hinv r v hold
                  exact ⟨l2, List.mem_append_left _ hl2, hid⟩
                · refine ⟨l, List.mem_append_right _ (by simp), hnew.symm⟩
  | unload r =>
      simp only [stepEvent, Option.some.injEq, Prod.mk.injEq] at hstep
      obtain ⟨hst, ho⟩ := hstep
      subst hst
      subst ho
      refine ⟨fun l hl => absurd hl (by simp), ?_⟩
      intro r2 v hv
      simpa using hinv r2 v (lookup_remove_sub hv)

theorem mem_take_idx {α : Type} : ∀ {L : List α} {i : Nat} {x : α},
    x ∈ L.take i → ∃ j, ∃ hj : j < L.length, j < i ∧ L.get ⟨j, hj⟩ = x := by
  intro L
  induction L with
  | nil => intro i x hx; simp at hx
  | cons a as ih =>
      intro i x hx
      cases i with
      | zero => simp at hx
      | succ n =>
          rw [List.take_succ_cons] at hx
          rcases List.mem_cons.mp hx with he | ht
          · exact ⟨0, Nat.succ_pos _, Nat.succ_pos _, he.symm⟩
          · obtain ⟨j, hj, hlt, hget⟩ := ih ht
            exact ⟨j + 1, Nat.succ_lt_succ hj, Nat.succ_lt_succ hlt, by
              simpa using hget⟩

theorem runEvents_causal {windows : Bool} : ∀ (es : List Event)
    (s : WriterState) (pre : List LogLine),
    TableLogged s pre →
    ∀ sf suf, runEvents windows es s = some (sf, suf) →
    (∀ i (hi : i < suf.length), ∀ x ∈ referencedIds (suf.get ⟨i, hi⟩),
        ∃ l2 ∈ pre ++ suf.take i, l2.classId = x) ∧
    TableLogged sf (pre ++ suf) := by
  intro es
  induction es with
  | nil =>
      intro s pre hinv sf suf hrun
      simp only [runEvents, Option.some.injEq, Prod.mk.injEq] at hrun
      obtain ⟨hs, hl⟩ := hrun
      subst hs
      subst hl
      constructor
      · intro i hi
        exact absurd hi (by simp)
      · simpa using hinv
  | cons e es ih =>
      intro s pre hinv sf suf hrun
      simp only [runEvents] at hrun
      cases hstep : stepEvent windows s e with
      | none =>
          simp only [hstep] at hrun
          exact Option.noConfusion hrun
      | some q =>
          obtain ⟨s2, out⟩ := q
          simp only [hstep] at hrun
          cases hrest : runEvents windows es s2 with
          | none =>
              simp only [hrest] at hrun
              exact Option.noConfusion hrun
          | some q2 =>
              obtain ⟨s3, log2⟩ := q2
              simp only [hrest, Option.some.injEq, Prod.mk.injEq] at hrun
              obtain ⟨hs3, hlog⟩ := hrun
              subst hs3
              subst hlog
              have hstep2 := stepEvent_causal hstep hinv
              have hrec := ih s2 (pre ++ out.toList) hstep2.2 s3 log2 hrest
              constructor
              · cases out with
                | none =>
                    intro i hi x hx
                    simp only [Option.toList, List.nil_append] at hi hx ⊢
                    have := hrec.1 i (by simpa using hi) x (by simpa using hx)
                    simpa using this
                | some l =>
                    intro i hi x hx
                    cases i with
                    | zero =>
                        simp only [Option.toList, List.singleton_append,
                                   List.get] at hx ⊢
                        rw [List.take_zero, List.append_nil]
                        exact hstep2.1 l rfl x hx
                    | succ n =>
                        simp only [Option.toList, List.singleton_append,
                                   List.get] at hx hi ⊢
                        have hn : n < log2.length := Nat.lt_of_succ_lt_succ hi
                        have := hrec.1 n hn x hx
                        rw [List.take_succ_cons]
                        obtain ⟨l2, hl2, hid⟩ := this
                        exact ⟨l2, by simpa using hl2, hid⟩
              · have := hrec.2
                rw [List.append_assoc] at this
                exact this

/-- Claim C1: over any sequence of load and unload events processed from
the initial state, every id referenced by an emitted line (its supertype
id and its interface ids) is the own id of a line emitted strictly
earlier: the log is a topological listing of the implied
supertype/interface dependency graph. -/
theorem c1_topological_log : ∀ (windows : Bool) (es : List Event)
    (sf : WriterState) (log : List LogLine),
    runEvents windows es initState = some (sf, log) →
    ∀ i (hi : i < log.length), ∀ x ∈ referencedIds (log.get ⟨i, hi⟩),
      ∃ j, ∃ hj : j < log.length, j < i ∧ (log.get ⟨j, hj⟩).classId = x := by
  intro windows es sf log hrun i hi x hx
  have hinv0 : TableLogged initState [] := by
    intro r v hv
    exact absurd hv (by simp [initState, lookupId])
  have hmain := (runEvents_causal es initState [] hinv0 sf log hrun).1 i hi x hx
  rw [List.nil_append] at hmain
  obtain ⟨l2, hl2mem, hl2id⟩ := hmain
  obtain ⟨j, hj, hjlt, hget⟩ := mem_take_idx hl2mem
  exact ⟨j, hj, hjlt, by rw [hget]; exact hl2id⟩

def kA : Klass :=
  { ref := 0, name := "java/lang/Object", builtinLoader := true,
    shared := false, hidden := false, patchedModule := false,
    javaSuper := none, localInterfaces := [] }

def kI : Klass :=
  { ref := 1, name := "p/I", builtinLoader := true, shared := false,
    hidden := false, patchedModule := false, javaSuper := some 0,
    localInterfaces := [] }

def kB : Klass :=
  { ref := 2, name := "p/B", builtinLoader := false, shared := false,
    hidden := false, patchedModule := false, javaSuper := some 0,
    localInterfaces := [1] }

def cfsB : CFS := { source := some "file:/dir/foo.jar" }

def esEx1 : List Event :=
  [Event.load kA none true, Event.load kI none true,
   Event.load kB (some cfsB) true]

def logEx1 : List LogLine :=
  [{ className := "java/lang/Object", classId := 0, extra := none },
   { className := "p/I", classId := 1, extra := none },
   { className := "p/B", classId := 2,
     extra := some { superId := 0, interfaceIds := [1],
                     src := "/dir/foo.jar" } }]

def stEx1 : WriterState :=
  { idTable := [(2, 2), (1, 1), (0, 0)], totalIds := 3 }

/-- Witness for C1: in a concrete three-event run the last line (index 2)
references id 0, and a line with own id 0 indeed occurs strictly
earlier. -/
theorem c1_witness :
    ∃ j, ∃ hj : j < logEx1.length, j < 2 ∧
      (logEx1.get ⟨j, hj⟩).classId = 0 :=
  c1_topological_log false esEx1 stEx1 logEx1 (by decide) 2 (by decide) 0
    (by decide)

/-- Every emitted line originates from some load event of the run: the run
splits around that event, and `write_to_stream` emitted the line there. -/
theorem line_origin {windows : Bool} : ∀ (es : List Event) (s sf : WriterState)
    (log : List LogLine), runEvents windows es s = some (sf, log) →
    ∀ l ∈ log, ∃ pre k cfs addOk suf s0 log0 s1,
      es = pre ++ Event.load k cfs addOk :: suf ∧
      runEvents windows pre s = some (s0, log0) ∧
      write_to_stream windows addOk k cfs s0 = some (some l, s1) := by
  intro es
  induction es with
  | nil =>
      intro s sf log hrun l hl
      simp only [runEvents, Option.some.injEq, Prod.mk.injEq] at hrun
      obtain ⟨hs, hlog⟩ := hrun
      rw [← hlog] at hl
      exact absurd hl (List.not_mem_nil l)
  | cons e es ih =>
      intro s sf log hrun l hl
      simp only [runEvents] at hrun
      cases hstep : stepEvent windows s e with
      | none =>
          simp only [hstep] at hrun
          exact Option.noConfusion hrun
      | some q =>
          obtain ⟨s2, out⟩ := q
          simp only [hstep] at hrun
          cases hrest : runEvents windows es s2 with
          | none =>
              simp only [hrest] at hrun
              exact Option.noConfusion hrun
          | some q2 =>
              obtain ⟨s3, log2⟩ := q2
              simp only [hrest, Option.some.injEq, Prod.mk.injEq] at hrun
              obtain ⟨hs3, hlog⟩ := hrun
              rw [← hlog] at hl
              rcases List.mem_append.mp hl with hin1 | hin2
              · cases out with
                | none => exact absurd hin1 (by simp)
                | some l0 =>
                    have heq : l = l0 := by simpa using hin1
                    subst heq
                    cases e with
                    | unload r =>
                        simp only [stepEvent, Option.some.injEq,
                                   Prod.mk.injEq] at hstep
                        exact absurd hstep.2 (by simp)
                    | load k cfs addOk =>
                        simp only [stepEvent] at hstep
                        cases hw : write_to_stream windows addOk k cfs s with
                        | none =>
                            rw [hw] at hstep
                            exact Option.noConfusion hstep
                        | some p =>
                            obtain ⟨o2, st2⟩ := p
                            rw [hw] at hstep
                            simp only [Option.some.injEq,
                                       Prod.mk.injEq] at hstep
                            refine ⟨[], k, cfs, addOk, es, s, [], s2,
                              rfl, rfl, ?_⟩
                            rw [hstep.1, hstep.2] at hw
                            exact hw
              · obtain ⟨pre, k, cfs, addOk, suf, s0, log0, s1, hsplit,
                  hrunpre, hw⟩ := ih s2 s3 log2 hrest l hin2
                refine ⟨e :: pre, k, cfs, addOk, suf, s0,
                  out.toList ++ log0, s1, by rw [hsplit]; rfl, ?_, hw⟩
                simp only [runEvents, hstep, hrunpre]

/-- A split of a list around an element that occurs in neither prefix is
unique. -/
theorem split_unique {α : Type} : ∀ {pre : List α} {suf pre2 suf2 : List α}
    {x : α}, pre ++ x :: suf = pre2 ++ x :: suf2 → x ∉ pre → x ∉ pre2 →
    pre = pre2 ∧ suf = suf2 := by
  intro pre
  induction pre with
  | nil =>
      intro suf pre2 suf2 x h hx hx2
      cases pre2 with
      | nil => simpa using h
      | cons b p2 =>
          rw [List.nil_append, List.cons_append] at h
          obtain ⟨hb, -⟩ := List.cons.inj h
          exact absurd (by rw [hb]; exact List.mem_cons_self b p2) hx2
  | cons a p ih =>
      intro suf pre2 suf2 x h hx hx2
      cases pre2 with
      | nil =>
          rw [List.cons_append, List.nil_append] at h
          obtain ⟨ha, -⟩ := List.cons.inj h
          exact absurd (by rw [← ha]; exact List.mem_cons_self a p) hx
      | cons b p2 =>
          rw [List.cons_append, List.cons_append] at h
          obtain ⟨hab, ht⟩ := List.cons.inj h
          subst hab
          have hx' : x ∉ p := fun hm => hx (List.mem_cons_of_mem a hm)
          have hx2' : x ∉ p2 := fun hm => hx2 (List.mem_cons_of_mem a hm)
          obtain ⟨h1, h2⟩ := ih ht hx' hx2'
          exact ⟨by rw [h1], h2⟩

/-- Claim C4: a write event rejected by a filter or by the dependency gate
produces no line and leaves the registry and counter untouched; and since
no deferral state exists, a class `B` whose supertype had no mapping when
`B`'s only load event was processed is never emitted in the entire run,
even though the supertype may be emitted later. -/
theorem c4_drop_permanent (windows okB : Bool) (B : Klass)
    (cfsB4 : Option CFS) (a : KlassRef) (pre suf : List Event)
    (sf sB : WriterState) (log logPre : List LogLine)
    (hsuper : B.javaSuper = some a)
    (hpre : runEvents windows pre initState = some (sB, logPre))
    (hnid : has_id sB a = false)
    (hrun : runEvents windows (pre ++ Event.load B cfsB4 okB :: suf)
      initState = some (sf, log))
    (huniq : ∀ k c o, Event.load k c o ∈ pre ++ suf → k.name ≠ B.name) :
    write_to_stream windows okB B cfsB4 sB = some (none, sB) ∧
    ∀ l ∈ log, l.className ≠ B.name := by
  have hdropB : write_to_stream windows okB B cfsB4 sB = some (none, sB) :=
    drop_of_missing_super hsuper hnid windows okB cfsB4
  refine ⟨hdropB, ?_⟩
  intro l hl hname
  obtain ⟨pre2, k, cfs, addOk, suf2, s0, log0, s1, hsplit, hrunpre2, hw⟩ :=
    line_origin _ _ _ _ hrun l hl
  rw [(emit_char hw).1] at hname
  have hmem : Event.load k cfs addOk ∈
      pre ++ Event.load B cfsB4 okB :: suf := by
    rw [hsplit]
    exact List.mem_append_right _ (List.mem_cons_self _ _)
  rcases List.mem_append.mp hmem with hp | hcs
  · exact huniq k cfs addOk (List.mem_append_left _ hp) hname
  rcases List.mem_cons.mp hcs with hev | hs
  swap
  · exact huniq k cfs addOk (List.mem_append_right _ hs) hname
  obtain ⟨hkB, hcB, hoB⟩ := Event.load.inj hev
  subst hkB
  subst hcB
  subst hoB
  have hxpre : Event.load k cfs addOk ∉ pre := fun hm =>
    huniq k cfs addOk (List.mem_append_left _ hm) hname
  have hxpre2 : Event.load k cfs addOk ∉ pre2 := by
    intro hm
    have hxsuf : Event.load k cfs addOk ∉ suf := fun hm2 =>
      huniq k cfs addOk (List.mem_append_right _ hm2) hname
    have hc1 : (pre ++ Event.load k cfs addOk :: suf).count
        (Event.load k cfs addOk) = 1 := by
      rw [List.count_append, List.count_cons_self,
          List.count_eq_zero.mpr hxpre, List.count_eq_zero.mpr hxsuf]
    have hc2 : 2 ≤ (pre2 ++ Event.load k cfs addOk :: suf2).count
        (Event.load k cfs addOk) := by
      rw [List.count_append, List.count_cons_self]
      have := List.one_le_count_iff.mpr hm
      omega
    rw [hsplit] at hc1
    omega
  obtain ⟨hpp, -⟩ := split_unique hsplit.symm hxpre2 hxpre
  subst hpp
  rw [hrunpre2] at hpre
  simp only [Option.some.injEq, Prod.mk.injEq] at hpre
  rw [← hpre.1] at hdropB
  rw [hw] at hdropB
  simp only [Option.some.injEq, Prod.mk.injEq] at hdropB
  exact Option.noConfusion hdropB.1

def kA4 : Klass :=
  { ref := 99, name := "p/A4", builtinLoader := true, shared := false,
    hidden := false, patchedModule := false, javaSuper := none,
    localInterfaces := [] }

def kB4 : Klass :=
  { ref := 10, name := "p/B4", builtinLoader := true, shared := false,
    hidden := false, patchedModule := false, javaSuper := some 99,
    localInterfaces := [] }

def logEx4 : List LogLine :=
  [{ className := "p/A4", classId := 0, extra := none }]

def stEx4 : WriterState := { idTable := [(99, 0)], totalIds := 1 }

/-- Witness for C4: `B`'s load event comes first, its supertype has no
mapping, the supertype is emitted afterwards, and `B` appears nowhere in
the log. -/
theorem c4_witness :
    write_to_stream false true kB4 none initState = some (none, initState) ∧
    ∀ l ∈ logEx4, l.className ≠ kB4.name :=
  c4_drop_permanent false true kB4 none 99 [] [Event.load kA4 none true]
    stEx4 initState logEx4 [] (by decide) (by decide) (by decide) (by decide)
    (by
      intro k c o hm
      rw [List.nil_append] at hm
      rcases List.mem_cons.mp hm with he | hnil
      · obtain ⟨hk, -, -⟩ := Event.load.inj he
        rw [hk]
        decide
      · exact absurd hnil (List.not_mem_nil _))

/-- Labels for the checks evaluated by `write_to_stream` on one event. In
the spec's numbering: 1 `sharedNonBuiltin`, 2 `missingSource` and
`notFileSource`, 3 `registrationFailed`, 4 `speciesMarker`, 5
`hiddenClass`, 6 `patchedModule`; `superHasId` and `interfaceHasId` are
the dependency gate's `has_id` checks. -/
inductive CheckTag where
  | sharedNonBuiltin
  | missingSource
  | notFileSource
  | registrationFailed
  | speciesMarker
  | superHasId
  | interfaceHasId
  | hiddenClass
  | patchedModule
deriving DecidableEq

/-- The provenance checks of lines 109-126 in evaluation order: the tags
of the checks evaluated, and whether control continues past them. -/
def provTrace (addOk : Bool) (k : Klass) (cfs : Option CFS) :
    List CheckTag × Bool :=
  if !k.builtinLoader then
    if k.shared then ([CheckTag.sharedNonBuiltin], false)
    else
      match cfsSrc cfs with
      | none => ([CheckTag.sharedNonBuiltin, CheckTag.missingSource], false)
      | some src =>
          if !(src.take 5 == "file:") then
            ([CheckTag.sharedNonBuiltin, CheckTag.missingSource,
              CheckTag.notFileSource], false)
          else if !addOk then
            ([CheckTag.sharedNonBuiltin, CheckTag.missingSource,
              CheckTag.notFileSource, CheckTag.registrationFailed], false)
          else
            ([CheckTag.sharedNonBuiltin, CheckTag.missingSource,
              CheckTag.notFileSource, CheckTag.registrationFailed], true)
  else ([], true)

/-- The interface loop of the gate (lines 139-146) in evaluation order. -/
def gateTraceIntfs (s : WriterState) : List KlassRef → List CheckTag × Bool
  | [] => ([], true)
  | i :: rest =>
      if has_id s i then
        let t := gateTraceIntfs s rest
        (CheckTag.interfaceHasId :: t.1, t.2)
      else ([CheckTag.interfaceHasId], false)

/-- The dependency gate (lines 133-147) in evaluation order: the supertype
`has_id` check (skipped when the supertype is null), then the interfaces. -/
def gateTrace (s : WriterState) (k : Klass) : List CheckTag × Bool :=
  match k.javaSuper with
  | some sup =>
      if has_id s sup then
        let t := gateTraceIntfs s k.localInterfaces
        (CheckTag.superHasId :: t.1, t.2)
      else ([CheckTag.superHasId], false)
  | none => gateTraceIntfs s k.localInterfaces

/-- The checks evaluated by one call of `write_to_stream`, as tags in
evaluation order, following the control flow of lines 104-155: the
provenance checks, then the species marker, then the dependency gate,
then the hidden-class check, then the patched-module check; evaluation
stops at the first rejecting check. -/
def checkSequence (addOk : Bool) (k : Klass) (cfs : Option CFS)
    (s : WriterState) : List CheckTag :=
  let p := provTrace addOk k cfs
  if !p.2 then p.1
  else if speciesReject cfs then p.1 ++ [CheckTag.speciesMarker]
  else
    let g := gateTrace s k
    if !g.2 then p.1 ++ [CheckTag.speciesMarker] ++ g.1
    else if k.hidden then
      p.1 ++ [CheckTag.speciesMarker] ++ g.1 ++ [CheckTag.hiddenClass]
    else
      p.1 ++ [CheckTag.speciesMarker] ++ g.1 ++
        [CheckTag.hiddenClass, CheckTag.patchedModule]

def isGateTag : CheckTag → Bool
  | CheckTag.superHasId => true
  | CheckTag.interfaceHasId => true
  | _ => false

/-- The ordering asserted by the claim: once a dependency-gate `has_id`
check has been evaluated, every later evaluated check is also a gate
check — i.e. all eligibility checks precede the gate. -/
def noEligAfterGate : List CheckTag → Bool
  | [] => true
  | c :: rest =>
      if isGateTag c then rest.all isGateTag else noEligAfterGate rest

def kC2 : Klass :=
  { ref := 1, name := "p/C", builtinLoader := false, shared := false,
    hidden := false, patchedModule := false, javaSuper := some 0,
    localInterfaces := [] }

def cfsC2 : CFS := { source := some "file:/tmp/c.jar" }

def stC2 : WriterState := { idTable := [(0, 0)], totalIds := 1 }

/-- Counterexample to C2 as stated: on this concrete load event the code
evaluates the hidden-class and patched-module checks after the gate's
`has_id` check on the supertype, so it is not the case that all six
eligibility checks are evaluated before the dependency gate. -/
theorem c2_counterexample :
    checkSequence true kC2 (some cfsC2) stC2 =
      [CheckTag.sharedNonBuiltin, CheckTag.missingSource,
       CheckTag.notFileSource, CheckTag.registrationFailed,
       CheckTag.speciesMarker, CheckTag.superHasId,
       CheckTag.hiddenClass, CheckTag.patchedModule] ∧
    noEligAfterGate (checkSequence true kC2 (some cfsC2) stC2) = false := by
  decide

theorem provTrace_sublist (addOk : Bool) (k : Klass) (cfs : Option CFS) :
    (provTrace addOk k cfs).1.Sublist
      [CheckTag.sharedNonBuiltin, CheckTag.missingSource,
       CheckTag.notFileSource, CheckTag.registrationFailed] := by
  cases hb : k.builtinLoader with
  | true => simp [provTrace, hb]
  | false =>
      cases hsh : k.shared with
      | true =>
          simp only [provTrace, hb, hsh, Bool.not_false, if_true]
          decide
      | false =>
          cases hc : cfsSrc cfs with
          | none =>
              simp only [provTrace, hb, hsh, hc, Bool.not_false, if_true,
                         Bool.false_eq_true, if_false]
              decide
          | some src =>
              cases hst : src.take 5 == "file:" with
              | false =>
                  simp only [provTrace, hb, hsh, hc, hst, Bool.not_false,
                             Bool.not_true, if_true, Bool.false_eq_true,
                             if_false]
                  decide
              | true =>
                  cases addOk with
                  | false =>
                      simp only [provTrace, hb, hsh, hc, hst, Bool.not_false,
                                 Bool.not_true, if_true, Bool.false_eq_true,
                                 if_false]
                      decide
                  | true =>
                      simp only [provTrace, hb, hsh, hc, hst, Bool.not_false,
                                 Bool.not_true, if_true, Bool.false_eq_true,
                                 if_false]
                      decide

theorem gateTraceIntfs_tags {s : WriterState} : ∀ (lst : List KlassRef),
    ∀ c ∈ (gateTraceIntfs s lst).1, isGateTag c = true := by
  intro lst
  induction lst with
  | nil => intro c hc; exact absurd hc (List.not_mem_nil c)
  | cons i rest ih =>
      intro c hc
      by_cases hi : has_id s i = true
      · simp only [gateTraceIntfs, hi, if_true] at hc
        rcases List.mem_cons.mp hc with he | ht
        · rw [he]; rfl
        · exact ih c ht
      · simp only [gateTraceIntfs, hi, if_false] at hc
        rcases List.mem_cons.mp hc with he | ht
        · rw [he]; rfl
        · exact absurd ht (List.not_mem_nil c)

theorem gateTrace_tags {s : WriterState} (k : Klass) :
    ∀ c ∈ (gateTrace s k).1, isGateTag c = true := by
  intro c hc
  unfold gateTrace at hc
  cases hsup : k.javaSuper with
  | none =>
      rw [hsup] at hc
      exact gateTraceIntfs_tags k.localInterfaces c hc
  | some sup =>
      rw [hsup] at hc
      by_cases hh : has_id s sup = true
      · simp only [hh, if_true] at hc
        rcases List.mem_cons.mp hc with he | ht
        · rw [he]; rfl
        · exact gateTraceIntfs_tags k.localInterfaces c ht
      · simp only [hh, if_false] at hc
        rcases List.mem_cons.mp hc with he | ht
        · rw [he]; rfl
        · exact absurd ht (List.not_mem_nil c)

/-- Claim C2 (amended): the evaluation order of the checks of
`write_to_stream` is — eligibility checks 1-4 (shared-via-non-builtin,
missing/non-file source, failed registration) and the
synthetic-generation marker, in the listed order; then the dependency
gate's `has_id` checks; then the hidden-class check; then the
patched-module check. The hidden-class (5) and patched-module (6) checks
are evaluated after the gate, not before it. -/
theorem c2_check_order_amended : ∀ (addOk : Bool) (k : Klass)
    (cfs : Option CFS) (s : WriterState),
    ∃ t1 g t3, checkSequence addOk k cfs s = t1 ++ g ++ t3 ∧
      t1.Sublist [CheckTag.sharedNonBuiltin, CheckTag.missingSource,
        CheckTag.notFileSource, CheckTag.registrationFailed,
        CheckTag.speciesMarker] ∧
      (∀ c ∈ g, isGateTag c = true) ∧
      t3.Sublist [CheckTag.hiddenClass, CheckTag.patchedModule] := by
  intro addOk k cfs s
  have hp : (provTrace addOk k cfs).1.Sublist
      [CheckTag.sharedNonBuiltin, CheckTag.missingSource,
       CheckTag.notFileSource, CheckTag.registrationFailed,
       CheckTag.speciesMarker] :=
    (provTrace_sublist addOk k cfs).trans (List.sublist_append_left _ _)
  have hps : ((provTrace addOk k cfs).1 ++ [CheckTag.speciesMarker]).Sublist
      [CheckTag.sharedNonBuiltin, CheckTag.missingSource,
       CheckTag.notFileSource, CheckTag.registrationFailed,
       CheckTag.speciesMarker] :=
    List.Sublist.append (provTrace_sublist addOk k cfs) (List.Sublist.refl _)
  unfold checkSequence
  by_cases h1 : (provTrace addOk k cfs).2 = true
  · by_cases h2 : speciesReject cfs = true
    · refine ⟨(provTrace addOk k cfs).1 ++ [CheckTag.speciesMarker], [], [],
        ?_, hps, ?_, ?_⟩
      · simp [h1, h2]
      · intro c hc; exact absurd hc (List.not_mem_nil c)
      · exact List.nil_sublist _
    · by_cases h3 : (gateTrace s k).2 = true
      · by_cases h4 : k.hidden = true
        · refine ⟨(provTrace addOk k cfs).1 ++ [CheckTag.speciesMarker],
            (gateTrace s k).1, [CheckTag.hiddenClass], ?_, hps,
            gateTrace_tags k, ?_⟩
          · simp [h1, h2, h3, h4, List.append_assoc]
          · decide
        · refine ⟨(provTrace addOk k cfs).1 ++ [CheckTag.speciesMarker],
            (gateTrace s k).1,
            [CheckTag.hiddenClass, CheckTag.patchedModule], ?_, hps,
            gateTrace_tags k, List.Sublist.refl _⟩
          simp [h1, h2, h3, h4, List.append_assoc]
      · refine ⟨(provTrace addOk k cfs).1 ++ [CheckTag.speciesMarker],
          (gateTrace s k).1, [], ?_, hps, gateTrace_tags k,
          List.nil_sublist _⟩
        simp [h1, h2, h3, List.append_assoc]
  · refine ⟨(provTrace addOk k cfs).1, [], [], ?_, hp, ?_, ?_⟩
    · simp [h1]
    · intro c hc; exact absurd hc (List.not_mem_nil c)
    · exact List.nil_sublist _

/-- Witness for the amended C2 at a concrete event. -/
theorem c2_witness :
    ∃ t1 g t3, checkSequence true kC2 (some cfsC2) stC2 = t1 ++ g ++ t3 ∧
      t1.Sublist [CheckTag.sharedNonBuiltin, CheckTag.missingSource,
        CheckTag.notFileSource, CheckTag.registrationFailed,
        CheckTag.speciesMarker] ∧
      (∀ c ∈ g, isGateTag c = true) ∧
      t3.Sublist [CheckTag.hiddenClass, CheckTag.patchedModule] :=
  c2_check_order_amended true kC2 (some cfsC2) stC2

/-- Claim C7: the source field of an emitted non-builtin line is the
class-file source with the file scheme stripped — 5 characters on
non-Windows platforms (leading path separator preserved), 6 on Windows
(drive letter preserved): `file:/dir/foo.jar` prints as `/dir/foo.jar`
and `file:/C:/dir/foo.jar` prints as `C:/dir/foo.jar`. -/
theorem c7_path_normalization : ∀ (windows addOk : Bool) (k : Klass)
    (cfs : Option CFS) (s s2 : WriterState) (l : LogLine) (e : ExtraInfo)
    (str : String),
    write_to_stream windows addOk k cfs s = some (some l, s2) →
    l.extra = some e → cfsSrc cfs = some str →
    e.src = str.drop (if windows then 6 else 5) ∧
    "file:/dir/foo.jar".drop 5 = "/dir/foo.jar" ∧
    "file:/C:/dir/foo.jar".drop 6 = "C:/dir/foo.jar" := by
  intro windows addOk k cfs s s2 l e str hw hex hcs
  refine ⟨?_, by decide, by decide⟩
  have hc := emit_char hw
  cases hb : k.builtinLoader with
  | true =>
      rw [hc.2.2.2.2.1 hb] at hex
      exact absurd hex (by simp)
  | false =>
      obtain ⟨e2, sup, str2, hex2, -, -, -, hcs2, hsrc⟩ := hc.2.2.2.2.2 hb
      rw [hex2] at hex
      have he : e2 = e := Option.some.inj hex
      have hstr : str2 = str := by
        rw [hcs2] at hcs
        exact Option.some.inj hcs
      rw [← he, ← hstr]
      exact hsrc

def stBpre : WriterState := { idTable := [(1, 1), (0, 0)], totalIds := 2 }

def eB : ExtraInfo := { superId := 0, interfaceIds := [1], src := "/dir/foo.jar" }

def lB : LogLine := { className := "p/B", classId := 2, extra := some eB }

/-- Witness for C7 at a concrete non-builtin emission on a non-Windows
platform. -/
theorem c7_witness :
    eB.src = "file:/dir/foo.jar".drop (if false then 6 else 5) ∧
    "file:/dir/foo.jar".drop 5 = "/dir/foo.jar" ∧
    "file:/C:/dir/foo.jar".drop 6 = "C:/dir/foo.jar" :=
  c7_path_normalization false true kB (some cfsB) stBpre stEx1 lB eB
    "file:/dir/foo.jar" (by decide) (by decide) (by decide)

/-- Claim C8: an accepted candidate produces exactly one line, rendered as
`<name> id: <id>` — where the id is the class's registry id — and, for a
non-builtin-loader class, additionally ` super: <id>` (the supertype's
registry id), then ` interfaces: <id> <id> ...` only when the class
declares interfaces (declaration order, registry ids), then
` source: <normalized path>`, in that fixed order. -/
theorem c8_line_grammar : ∀ (windows addOk : Bool) (k : Klass)
    (cfs : Option CFS) (s s2 : WriterState) (l : LogLine),
    write_to_stream windows addOk k cfs s = some (some l, s2) →
    l.className = k.name ∧
    lookupId s2.idTable k.ref = some l.classId ∧
    (k.builtinLoader = true →
      renderLine l = k.name ++ " id: " ++ toString l.classId) ∧
    (k.builtinLoader = false → ∃ e sup str,
      l.extra = some e ∧ k.javaSuper = some sup ∧
      lookupId s2.idTable sup = some e.superId ∧
      List.Forall₂ (fun r x => lookupId s2.idTable r = some x)
        k.localInterfaces e.interfaceIds ∧
      cfsSrc cfs = some str ∧
      renderLine l =
        k.name ++ " id: " ++ toString l.classId ++ " super: " ++
          toString e.superId ++
          (if k.localInterfaces.length > 0 then
             " interfaces:" ++ renderIds e.interfaceIds
           else "") ++
          " source: " ++ str.drop (if windows then 6 else 5)) := by
  intro windows addOk k cfs s s2 l hw
  have hc := emit_char hw
  refine ⟨hc.1, hc.2.1, ?_, ?_⟩
  · intro hb
    have hex := hc.2.2.2.2.1 hb
    simp [renderLine, hex, hc.1]
  · intro hb
    obtain ⟨e, sup, str, hex, hsup, hsid, hfa, hcs, hsrc⟩ := hc.2.2.2.2.2 hb
    have hlen := List.Forall₂.length_eq hfa
    refine ⟨e, sup, str, hex, hsup, hsid, hfa, hcs, ?_⟩
    simp only [renderLine, hex, hc.1, hsrc, hlen]
    simp [String.append_assoc]

/-- Witness for C8 at the concrete non-builtin emission of `kB`. -/
theorem c8_witness :
    lB.className = kB.name ∧
    lookupId stEx1.idTable kB.ref = some lB.classId ∧
    (kB.builtinLoader = true →
      renderLine lB = kB.name ++ " id: " ++ toString lB.classId) ∧
    (kB.builtinLoader = false → ∃ e sup str,
      lB.extra = some e ∧ kB.javaSuper = some sup ∧
      lookupId stEx1.idTable sup = some e.superId ∧
      List.Forall₂ (fun r x => lookupId stEx1.idTable r = some x)
        kB.localInterfaces e.interfaceIds ∧
      cfsSrc (some cfsB) = some str ∧
      renderLine lB =
        kB.name ++ " id: " ++ toString lB.classId ++ " super: " ++
          toString e.superId ++
          (if kB.localInterfaces.length > 0 then
             " interfaces:" ++ renderIds e.interfaceIds
           else "") ++
          " source: " ++ str.drop (if false then 6 else 5)) :=
  c8_line_grammar false true kB (some cfsB) stBpre stEx1 lB (by decide)

/-- Claim C10: the dependency gate passes a class with a null supertype —
only the null case skips the `has_id` check, a non-null supertype is
always checked — and under the precondition that every
non-builtin-loaded class has a supertype, the emitter's
`assert(super != nullptr)` branch is unreachable (the call never aborts)
and every emitted non-builtin line carries the `super:` field. -/
theorem c10_super_assert : ∀ (windows addOk : Bool) (k : Klass)
    (cfs : Option CFS) (s : WriterState),
    (k.builtinLoader = false → k.javaSuper.isSome = true) →
    (k.javaSuper = none → superGateReject s k = false) ∧
    (∀ sup, k.javaSuper = some sup →
        superGateReject s k = !(has_id s sup)) ∧
    write_to_stream windows addOk k cfs s ≠ none ∧
    (∀ l s2, write_to_stream windows addOk k cfs s = some (some l, s2) →
        k.builtinLoader = false →
        ∃ e t, l.extra = some e ∧
          renderLine l = k.name ++ " id: " ++ toString l.classId ++
            " super: " ++ t) := by
  intro windows addOk k cfs s hpre
  refine ⟨?_, ?_, ?_, ?_⟩
  · intro hn
    simp [superGateReject, hn]
  · intro sup hsup
    simp [superGateReject, hsup]
  · rw [write_to_stream]
    split_ifs with h1 h2 h3 h4 h5 h6 h7
    · simp
    · simp
    · simp
    · simp
    · simp
    · simp
    · have hb : k.builtinLoader = false := by
        cases hbb : k.builtinLoader
        · rfl
        · rw [hbb] at h7; exact absurd h7 (by simp)
      have hs := hpre hb
      cases hsup : k.javaSuper with
      | none => rw [hsup] at hs; exact absurd hs (by simp)
      | some sup => simp [hsup]
    · simp
  · intro l s2 hw hb
    have hc := emit_char hw
    obtain ⟨e, sup, str, hex, hsup, hsid, hfa, hcs, hsrc⟩ := hc.2.2.2.2.2 hb
    refine ⟨e, toString e.superId ++
      ((if e.interfaceIds.length > 0 then
          " interfaces:" ++ renderIds e.interfaceIds
        else "") ++ (" source: " ++ e.src)), hex, ?_⟩
    simp only [renderLine, hex, hc.1]
    simp [String.append_assoc]

/-- Witness for C10 at the concrete non-builtin emission of `kB`. -/
theorem c10_witness :
    (kB.javaSuper = none → superGateReject stBpre kB = false) ∧
    (∀ sup, kB.javaSuper = some sup →
        superGateReject stBpre kB = !(has_id stBpre sup)) ∧
    write_to_stream false true kB (some cfsB) stBpre ≠ none ∧
    (∀ l s2,
        write_to_stream false true kB (some cfsB) stBpre =
          some (some l, s2) →
        kB.builtinLoader = false →
        ∃ e t, l.extra = some e ∧
          renderLine l = kB.name ++ " id: " ++ toString l.classId ++
            " super: " ++ t) :=
  c10_super_assert false true kB (some cfsB) stBpre (by decide)

/-- The global state around `ClassListWriter::write` (lines 54-65): the
`DumpLoadedClassList` option (the configured output path), the registry,
the number of warnings logged via `log_warning`, and the lines written to
the class-list stream. -/
structure VMState where
  dumpLoadedClassList : Option String
  writer : WriterState
  warnings : Nat
  log : List LogLine
deriving DecidableEq

/-- Modelled from the spec: `ClassListWriter::is_enabled` lives in
`classListWriter.hpp`, which is not among the sources; per the spec the
feature-enable signal is the configured output path
(`DumpLoadedClassList`), whose absence means the recorder performs no
work at all. -/
def is_enabled (v : VMState) : Bool := v.dumpLoadedClassList.isSome

/-- `ClassListWriter::write` (lines 54-65): when the runtime has no jrt
entry (`hasJrt = false`, an exploded build), it logs one warning, clears
`DumpLoadedClassList`, and returns without writing anything; otherwise it
delegates to `write_to_stream` on the class-list stream. -/
def write (hasJrt windows addOk : Bool) (k : Klass) (cfs : Option CFS)
    (v : VMState) : Option VMState :=
  if !hasJrt then
    some { v with warnings := v.warnings + 1, dumpLoadedClassList := none }
  else
    match write_to_stream windows addOk k cfs v.writer with
    | none => none
    | some (out, s2) =>
        some { v with writer := s2, log := v.log ++ out.toList }

/-- Modelled from the spec: call sites invoke `write` only while the
enable signal is present (`write` itself asserts `is_enabled`), so a
write request arriving while the feature is disabled performs no work. -/
def writeRequest (hasJrt windows addOk : Bool) (k : Klass)
    (cfs : Option CFS) (v : VMState) : Option VMState :=
  if is_enabled v then write hasJrt windows addOk k cfs v else some v

/-- One write request: platform flag, registration result, class and
class-file stream. -/
structure WriteReq where
  windows : Bool
  addOk : Bool
  k : Klass
  cfs : Option CFS
deriving DecidableEq

/-- Processing of a sequence of write requests. -/
def runRequests (hasJrt : Bool) : List WriteReq → VMState → Option VMState
  | [], v => some v
  | r :: rest, v =>
      match writeRequest hasJrt r.windows r.addOk r.k r.cfs v with
      | none => none
      | some v2 => runRequests hasJrt rest v2

theorem runRequests_disabled {hasJrt : Bool} {v : VMState}
    (h : is_enabled v = false) :
    ∀ reqs, runRequests hasJrt reqs v = some v := by
  intro reqs
  induction reqs with
  | nil => rfl
  | cons r rest ih =>
      simp only [runRequests, writeRequest, h, Bool.false_eq_true, if_false]
      exact ih

/-- Claim C9: when the runtime cannot supply file-based class locations
(no jrt entry), an enabled write request logs one warning, clears the
enable signal, writes no line and leaves the registry untouched; and
every subsequent write request of the run is a no-op instead of failing
the host process. -/
theorem c9_env_unsupported : ∀ (windows addOk : Bool) (k : Klass)
    (cfs : Option CFS) (v : VMState), is_enabled v = true →
    ∃ v2, writeRequest false windows addOk k cfs v = some v2 ∧
      v2.warnings = v.warnings + 1 ∧ v2.log = v.log ∧
      v2.writer = v.writer ∧ is_enabled v2 = false ∧
      ∀ reqs, runRequests false reqs v2 = some v2 := by
  intro windows addOk k cfs v hen
  refine ⟨{ v with warnings := v.warnings + 1, dumpLoadedClassList := none },
    ?_, rfl, rfl, rfl, rfl, ?_⟩
  · simp [writeRequest, hen, write]
  · exact runRequests_disabled rfl

def vEx9 : VMState :=
  { dumpLoadedClassList := some "list.txt", writer := initState,
    warnings := 0, log := [] }

/-- Witness for C9 at a concrete enabled state on a jrt-less runtime. -/
theorem c9_witness :
    ∃ v2, writeRequest false false true kA none vEx9 = some v2 ∧
      v2.warnings = vEx9.warnings + 1 ∧ v2.log = vEx9.log ∧
      v2.writer = vEx9.writer ∧ is_enabled v2 = false ∧
      ∀ reqs, runRequests false reqs v2 = some v2 :=
  c9_env_unsupported false true kA none vEx9 (by decide)

end ClassListWriter
